import Mathlib

/-!
Verification of the MapReduce coordinator and worker of this repository.

The coordinator (`src/src/mr/coordinator.go`) is embedded as a pure state
machine: `getTask` and `reportTask` are functions from a `Coordinator` state
(plus the call's arguments and, for `getTask`, the current time) to a new
state and reply.  Wall-clock time is modelled as a natural number of seconds;
the stall threshold of `10 * time.Second` becomes the constant `10`.

The worker (`src/unnamed/part_000`) is embedded as pure functions over an
explicit filesystem model (`FS`), with failure oracles standing in for the
I/O errors the Go code branches on.
-/

namespace MR

/-- `TaskState` of coordinator.go: `TaskIdle`, `TaskInProgress`, `TaskCompleted`. -/
inductive TaskState where
  | idle
  | inProgress
  | completed
deriving DecidableEq, Repr

/-- `Task` of coordinator.go.  `startTime` is in model seconds. -/
structure Task where
  state : TaskState
  startTime : Nat
  fileNames : List String
  mapTaskId : Nat
deriving DecidableEq, Repr

instance : Inhabited Task := ⟨⟨TaskState.idle, 0, [], 0⟩⟩

/-- `TaskType` of the RPC definitions (`src/unnamed/part_001`). -/
inductive TaskType where
  | mapTask
  | reduceTask
  | exitTask
  | noTask
deriving DecidableEq, Repr

/-- `GetTaskReply` of the RPC definitions.  Fields not assigned by a handler
keep Go's zero values (`0`, `""`, `[]`). -/
structure GetTaskReply where
  taskType : TaskType
  taskId : Nat
  fileName : String
  fileNames : List String
  nReduce : Nat
  mapTaskId : Nat
deriving DecidableEq, Repr

/-- `ReportTaskArgs` of the RPC definitions.  `taskId` is a Go `int`, hence
modelled as an integer (it may be negative). -/
structure ReportTaskArgs where
  taskType : TaskType
  taskId : Int
  success : Bool
deriving DecidableEq, Repr

/-- `Coordinator` of coordinator.go (without the mutex and the RPC server,
which only serialize calls). -/
structure Coordinator where
  mapTasks : List Task
  reduceTasks : List Task
  nReduce : Nat
  nMap : Nat
  mapDone : Bool
  allDone : Bool
deriving DecidableEq, Repr

/-- One iteration of the loops of `Coordinator.checkTimeouts`: a task that is
`IN_PROGRESS` and whose age exceeds 10 seconds is reset to `IDLE`. -/
def reapTask (now : Nat) (t : Task) : Task :=
  if t.state = TaskState.inProgress ∧ now - t.startTime > 10 then
    { t with state := TaskState.idle }
  else
    t

/-- `Coordinator.checkTimeouts`: reap stalled map tasks and reduce tasks. -/
def checkTimeouts (c : Coordinator) (now : Nat) : Coordinator :=
  { c with
    mapTasks := c.mapTasks.map (reapTask now)
    reduceTasks := c.reduceTasks.map (reapTask now) }

/-- Index of the first `IDLE` task in the list, scanning in index order, as
the dispatch loops of `Coordinator.GetTask` do. -/
def firstIdle : List Task → Option Nat
  | [] => none
  | t :: rest =>
    if t.state = TaskState.idle then some 0
    else (firstIdle rest).map (· + 1)

/-- The `allMapsDone` / `allReducesDone` scan of `Coordinator.GetTask`. -/
def allCompleted (tasks : List Task) : Bool :=
  tasks.all (fun t => t.state = TaskState.completed)

/-- `fmt.Sprintf("mr-%d-%d", mapId, r)`. -/
def interFile (mapId r : Nat) : String :=
  "mr-" ++ toString mapId ++ "-" ++ toString r

/-- The intermediate-file list built for a reduce task in `GetTask`:
`["mr-0-r", ..., "mr-(nMap-1)-r"]`. -/
def interFiles (nMap r : Nat) : List String :=
  (List.range nMap).map (fun mapId => interFile mapId r)

/-- The reply Go produces when only `reply.TaskType` is assigned: the other
fields keep their zero values. -/
def bareReply (ty : TaskType) : GetTaskReply :=
  { taskType := ty, taskId := 0, fileName := "", fileNames := [], nReduce := 0,
    mapTaskId := 0 }

/-- The reduce half of `Coordinator.GetTask` (lines 79-115): dispatch the
first `IDLE` reduce task, else set `allDone` and reply `EXIT` when all
reduce tasks are completed, else reply `NoTask`. -/
def reducePhase (c : Coordinator) (now : Nat) : Coordinator × GetTaskReply :=
  match firstIdle c.reduceTasks with
  | some i =>
    let files := interFiles c.nMap i
    let t := c.reduceTasks.getD i default
    let t2 := { t with state := TaskState.inProgress, startTime := now, fileNames := files }
    ({ c with reduceTasks := c.reduceTasks.set i t2 },
     { taskType := TaskType.reduceTask, taskId := i, fileName := "",
       fileNames := files, nReduce := c.nReduce, mapTaskId := 0 })
  | none =>
    if allCompleted c.reduceTasks then
      ({ c with allDone := true }, bareReply TaskType.exitTask)
    else
      (c, bareReply TaskType.noTask)

/-- `Coordinator.GetTask`.  First `checkTimeouts`; then, while `mapDone` is
false, dispatch the first `IDLE` map task (the reply carries the task's
index, its input file `FileNames[0]` and `nReduce`); if none is idle and all
maps are completed, set `mapDone` and fall through to the reduce phase; if
some map is still in progress, reply `NoTask`. -/
def getTask (c : Coordinator) (now : Nat) : Coordinator × GetTaskReply :=
  let c1 := checkTimeouts c now
  if c1.mapDone then
    reducePhase c1 now
  else
    match firstIdle c1.mapTasks with
    | some i =>
      let t := c1.mapTasks.getD i default
      let t2 := { t with state := TaskState.inProgress, startTime := now }
      ({ c1 with mapTasks := c1.mapTasks.set i t2 },
       { taskType := TaskType.mapTask, taskId := i,
         fileName := t.fileNames.getD 0 "", fileNames := [],
         nReduce := c1.nReduce, mapTaskId := 0 })
    | none =>
      if allCompleted c1.mapTasks then
        reducePhase { c1 with mapDone := true } now
      else
        (c1, bareReply TaskType.noTask)

/-- The state update of `Coordinator.ReportTask` on one task list entry:
success sets `COMPLETED`, failure resets to `IDLE` (only the `State` field is
written). -/
def reportUpdate (tasks : List Task) (i : Nat) (success : Bool) : List Task :=
  let t := tasks.getD i default
  tasks.set i
    { t with state := if success then TaskState.completed else TaskState.idle }

/-- `Coordinator.ReportTask`.  Out-of-range task ids are ignored; task types
other than map/reduce are ignored. -/
def reportTask (c : Coordinator) (args : ReportTaskArgs) : Coordinator :=
  if args.taskType = TaskType.mapTask then
    if 0 ≤ args.taskId ∧ args.taskId < (c.mapTasks.length : Int) then
      { c with mapTasks := reportUpdate c.mapTasks args.taskId.toNat args.success }
    else c
  else if args.taskType = TaskType.reduceTask then
    if 0 ≤ args.taskId ∧ args.taskId < (c.reduceTasks.length : Int) then
      { c with reduceTasks := reportUpdate c.reduceTasks args.taskId.toNat args.success }
    else c
  else c

/-- `Coordinator.Done`. -/
def done (c : Coordinator) : Bool :=
  c.allDone

/-- `MakeCoordinator files nReduce` (without starting the RPC server). -/
def makeCoordinator (files : List String) (nReduce : Nat) : Coordinator :=
  { mapTasks := files.map (fun f =>
      { state := TaskState.idle, startTime := 0, fileNames := [f], mapTaskId := 0 })
    reduceTasks := (List.range nReduce).map (fun _ =>
      { state := TaskState.idle, startTime := 0, fileNames := [], mapTaskId := 0 })
    nReduce := nReduce
    nMap := files.length
    mapDone := false
    allDone := false }

/-! ### Worker: partitioning hash (`ihash` of `src/unnamed/part_000`) -/

/-- One `Write` step of Go's `hash/fnv` 32-bit FNV-1a: xor in the byte, then
multiply by the FNV prime, in 32-bit arithmetic. -/
def fnv32aStep (h b : Nat) : Nat :=
  ((h ^^^ b) * 16777619) % 4294967296

/-- The 32-bit FNV-1a hash of a byte sequence (offset basis 2166136261),
modelling `fnv.New32a(); h.Write(bytes); h.Sum32()`. -/
def fnv32a (bytes : List Nat) : Nat :=
  bytes.foldl fnv32aStep 2166136261

/-- `ihash`: FNV-1a over the key's UTF-8 bytes, masked with `0x7fffffff`. -/
def ihash (key : String) : Nat :=
  fnv32a ((String.toUTF8 key).toList.map UInt8.toNat) &&& 0x7fffffff

/-- The reduce bucket chosen for a key in `performMapTask`:
`ihash(kv.Key) % nReduce`. -/
def bucketOf (key : String) (nReduce : Nat) : Nat :=
  ihash key % nReduce

/-! ### Worker: reduce-side sorting and grouping -/

/-- `KeyValue` of `src/unnamed/part_000`. -/
structure KeyValue where
  key : String
  value : String
deriving DecidableEq, Repr

/-- The ordering used by `sort.Sort(ByKey(kva))` (`ByKey.Less` compares
`Key` with `<`); `mergeSort` takes the complementary `≤`. -/
def byKeyLE (a b : KeyValue) : Bool :=
  decide (a.key ≤ b.key)

/-- One implementation of the `sort.Sort(ByKey(kva))` call: sort the decoded
records ascending by key.  Go's `sort.Sort` is not stable, so only the
postcondition of this function — the result is a permutation of the input,
ordered by key — may be relied on; theorems about the grouped output
therefore quantify over any list satisfying that contract rather than over
this particular implementation. -/
def sortByKey (kva : List KeyValue) : List KeyValue :=
  kva.mergeSort byKeyLE

/-- The grouping loop of `performReduceTask` (lines 183-199): starting at
`i`, advance `j` over the maximal run of records equal to `kva[i].Key`,
call the user reduce function on the key and the run's values, emit one
`(key, output)` pair, and continue at `j`.  The fuel mirrors the loop bound
`i < len(kva)` (the index advances by at least one per iteration). -/
def reduceGroupsAux (reducef : String → List String → String) :
    Nat → List KeyValue → List (String × String)
  | 0, _ => []
  | _, [] => []
  | fuel + 1, kv :: rest =>
    (kv.key,
      reducef kv.key (kv.value :: (rest.takeWhile (fun x => x.key == kv.key)).map KeyValue.value)) ::
      reduceGroupsAux reducef fuel (rest.dropWhile (fun x => x.key == kv.key))

/-- The `(key, reduce_output)` pairs emitted by the grouping loop of
`performReduceTask` on a (sorted) record list. -/
def reduceGroups (reducef : String → List String → String) (l : List KeyValue) :
    List (String × String) :=
  reduceGroupsAux reducef l.length l

/-- The bytes `fmt.Fprintf(tempFile, "%v %v\n", key, output)` accumulates:
one `"<key> <output>\n"` line per emitted pair. -/
def linesOut (out : List (String × String)) : String :=
  String.join (out.map (fun p => p.1 ++ " " ++ p.2 ++ "\n"))

/-! ### Filesystem model and the atomic output protocol -/

/-- A filesystem: a partial map from path to file contents. -/
def FS : Type := String → Option String

/-- Create or overwrite the file at `p` with contents `v`. -/
def fsSet (fs : FS) (p v : String) : FS :=
  fun q => if q = p then some v else fs q

/-- `os.Remove p`. -/
def fsRemove (fs : FS) (p : String) : FS :=
  fun q => if q = p then none else fs q

/-- `os.Rename src dst` (when it succeeds): `dst` receives `src`'s contents
and `src` disappears. -/
def fsRename (fs : FS) (src dst : String) : FS :=
  match fs src with
  | some v => fsSet (fsRemove fs src) dst v
  | none => fs

/-- Remove every path in the list (the cleanup loops of `performMapTask`). -/
def removeAll (fs : FS) : List String → FS
  | [] => fs
  | p :: ps => removeAll (fsRemove fs p) ps

/-- `fmt.Sprintf("mr-out-%d", r)`. -/
def outFile (r : Nat) : String :=
  "mr-out-" ++ toString r

/-- Which I/O operations of a map task's write phase fail (the error
branches of `performMapTask`). -/
structure MapFailures where
  createFail : Nat → Bool
  encodeFail : Nat → Bool
  renameFail : Nat → Bool

/-- The temp-file creation loop of `performMapTask` (lines 89-103): create a
temporary file per bucket; on a creation error, remove the already created
temporaries and fail. -/
def createTemps (tmp : Nat → String) (fail : Nat → Bool) :
    List Nat → FS → List String → FS × Bool
  | [], fs, _ => (fs, true)
  | r :: rest, fs, created =>
    if fail r then (removeAll fs created, false)
    else createTemps tmp fail rest (fsSet fs (tmp r) "") (created ++ [tmp r])

/-- The encoding loop of `performMapTask` (lines 106-123): write bucket `r`'s
records to its temporary file; on an encoding error, remove every temporary
file and fail. -/
def writeTemps (tmp : Nat → String) (content : Nat → String) (fail : Nat → Bool)
    (allTemps : List String) : List Nat → FS → FS × Bool
  | [], fs => (fs, true)
  | r :: rest, fs =>
    if fail r then (removeAll fs allTemps, false)
    else writeTemps tmp content fail allTemps rest (fsSet fs (tmp r) (content r))

/-- The rename loop of `performMapTask` (lines 126-143): rename bucket `r`'s
temporary to `mr-<m>-<r>`; on a rename error, remove the remaining
temporaries (indices `≥ r`) and the final files already renamed by this
attempt (indices `< r`), and fail. -/
def renameTemps (tmp : Nat → String) (mapId : Nat) (fail : Nat → Bool) :
    List Nat → FS → List Nat → FS × Bool
  | [], fs, _ => (fs, true)
  | r :: rest, fs, renamed =>
    if fail r then
      let fs1 := removeAll fs ((r :: rest).map tmp)
      (removeAll fs1 (renamed.map (fun i => interFile mapId i)), false)
    else
      renameTemps tmp mapId fail rest (fsRename fs (tmp r) (interFile mapId r))
        (renamed ++ [r])

/-- The write phase of `performMapTask` (lines 86-145): create `nReduce`
temporary files, encode each bucket into its temporary, then rename each
temporary over `mr-<m>-<r>`; `content r` is the encoded payload of bucket
`r`, `tmp r` the name `ioutil.TempFile` chose for it. -/
def performMapWrite (mapId nReduce : Nat) (tmp : Nat → String)
    (content : Nat → String) (o : MapFailures) (fs : FS) : FS × Bool :=
  let idxs := List.range nReduce
  let (fs1, ok1) := createTemps tmp o.createFail idxs fs []
  if ok1 then
    let (fs2, ok2) := writeTemps tmp content o.encodeFail (idxs.map tmp) idxs fs1
    if ok2 then renameTemps tmp mapId o.renameFail idxs fs2 []
    else (fs2, false)
  else (fs1, false)

/-- The filesystem after the rename loop of `performMapTask` has processed
the buckets of `pre` in order without errors. -/
def renameFold (tmp : Nat → String) (mapId : Nat) (fs : FS) (pre : List Nat) : FS :=
  pre.foldl (fun f i => fsRename f (tmp i) (interFile mapId i)) fs

/-! ### Worker: the reduce task (`performReduceTask`) -/

/-- Outcome of `os.Open` plus the decode loop on one intermediate file.
`ok recs readErr` means the open succeeded and decoding yielded `recs`
before `Decode` returned an error — `readErr` distinguishes a genuine read
error from end-of-file, a distinction the code does not make (it `break`s
either way). -/
inductive OpenResult where
  | ok (recs : List KeyValue) (readErr : Bool)
  | errNotExist
  | errOther

/-- Records contributed by one intermediate file: any `os.Open` error makes
the file be skipped (`continue`), and the decode loop collects records until
the first `Decode` error. -/
def readIntermediate : OpenResult → List KeyValue
  | OpenResult.ok recs _ => recs
  | OpenResult.errNotExist => []
  | OpenResult.errOther => []

/-- The read loop of `performReduceTask` (lines 150-168): concatenate the
records of each listed intermediate file in order. -/
def readAllFiles (files : List OpenResult) : List KeyValue :=
  files.foldl (fun acc f => acc ++ readIntermediate f) []

/-- `performReduceTask` over the filesystem model: read, sort, group, then
write `mr-out-<r>` through a temporary file.  `tmpCreateFail` and
`renameFail` inject the only I/O errors the function checks; `Fprintf`
errors are ignored by the code. -/
def performReduceTask (files : List OpenResult)
    (reducef : String → List String → String) (r : Nat) (tmpName : String)
    (tmpCreateFail renameFail : Bool) (fs : FS) : FS × Bool :=
  let kva := readAllFiles files
  let out := reduceGroups reducef (sortByKey kva)
  if tmpCreateFail then (fs, false)
  else
    let fs1 := fsSet fs tmpName ""
    let fs2 := fsSet fs1 tmpName (linesOut out)
    if renameFail then (fsRemove fs2 tmpName, false)
    else (fsRename fs2 tmpName (outFile r), true)

/-- The tail of `performReduceTask` after the `sort.Sort` call, with the
sort's result `sorted` supplied explicitly: group the sorted records, then
write `mr-out-<r>` through a temporary file.  Go's `sort.Sort` is unstable,
so `sorted` can be any permutation of the decoded records that is ordered by
key; every further step of the function is determined by it. -/
def performReduceTaskSorted (sorted : List KeyValue)
    (reducef : String → List String → String) (r : Nat) (tmpName : String)
    (tmpCreateFail renameFail : Bool) (fs : FS) : FS × Bool :=
  let out := reduceGroups reducef sorted
  if tmpCreateFail then (fs, false)
  else
    let fs1 := fsSet fs tmpName ""
    let fs2 := fsSet fs1 tmpName (linesOut out)
    if renameFail then (fsRemove fs2 tmpName, false)
    else (fsRename fs2 tmpName (outFile r), true)

/-- A single RPC arriving at the coordinator. -/
inductive Step where
  | get (now : Nat)
  | report (args : ReportTaskArgs)

/-- Effect of one RPC on the coordinator state. -/
def applyStep (c : Coordinator) : Step → Coordinator
  | Step.get now => (getTask c now).1
  | Step.report args => reportTask c args

/-- Coordinator states reachable from `makeCoordinator files nReduce` by any
sequence of `GetTask` / `ReportTask` calls. -/
inductive Reachable (files : List String) (nReduce : Nat) : Coordinator → Prop
  | init : Reachable files nReduce (makeCoordinator files nReduce)
  | step {c : Coordinator} (s : Step) :
      Reachable files nReduce c → Reachable files nReduce (applyStep c s)

/-- Scenario: one input file, one reduce bucket; map task 0 has been
dispatched at time 0 and reported successful. -/
def oneMapCompleted : Coordinator :=
  reportTask ((getTask (makeCoordinator ["a.txt"] 1) 0).1)
    { taskType := TaskType.mapTask, taskId := 0, success := true }

/-- Scenario: one input file, two reduce buckets; map 0 completes, a reduce
task is dispatched (caching `mapDone := true`), then a late failure report
for map task 0 arrives and resets it to `IDLE`. -/
def lateMapFailure : Coordinator :=
  reportTask ((getTask (reportTask ((getTask (makeCoordinator ["a.txt"] 2) 0).1)
      { taskType := TaskType.mapTask, taskId := 0, success := true }) 1).1)
    { taskType := TaskType.mapTask, taskId := 0, success := false }

/-- A constant reduce callback used by concrete scenarios: word count style,
returning the number of values. -/
def countReduce : String → List String → String :=
  fun _ vs => toString vs.length

/-- The empty filesystem. -/
def fsEmpty : FS :=
  fun _ => none

/-! ## Helper lemmas -/

theorem checkTimeouts_mapDone (c : Coordinator) (now : Nat) :
    (checkTimeouts c now).mapDone = c.mapDone := rfl

theorem checkTimeouts_allDone (c : Coordinator) (now : Nat) :
    (checkTimeouts c now).allDone = c.allDone := rfl

theorem checkTimeouts_nReduce (c : Coordinator) (now : Nat) :
    (checkTimeouts c now).nReduce = c.nReduce := rfl

theorem reducePhase_fst_mapDone (c : Coordinator) (now : Nat) :
    (reducePhase c now).1.mapDone = c.mapDone := by
  unfold reducePhase
  cases firstIdle c.reduceTasks <;> simp
  split <;> rfl

theorem reducePhase_fst_mapTasks (c : Coordinator) (now : Nat) :
    (reducePhase c now).1.mapTasks = c.mapTasks := by
  unfold reducePhase
  cases firstIdle c.reduceTasks <;> simp
  split <;> rfl

theorem reducePhase_allDone_of (c : Coordinator) (now : Nat) (h : c.allDone = true) :
    (reducePhase c now).1.allDone = true := by
  unfold reducePhase
  cases firstIdle c.reduceTasks <;> simp
  · split
    · rfl
    · exact h
  · exact h

theorem reducePhase_allDone_flip (c : Coordinator) (now : Nat)
    (h : (reducePhase c now).1.allDone = true) :
    c.allDone = true ∨ allCompleted (reducePhase c now).1.reduceTasks = true := by
  revert h
  unfold reducePhase
  cases hf : firstIdle c.reduceTasks <;> simp
  · split
    · intro _
      right
      simpa using ‹allCompleted c.reduceTasks = true›
    · exact fun h => Or.inl h
  · exact fun h => Or.inl h

theorem reportTask_mapDone (c : Coordinator) (a : ReportTaskArgs) :
    (reportTask c a).mapDone = c.mapDone := by
  unfold reportTask
  split
  · split <;> rfl
  · split
    · split <;> rfl
    · rfl

theorem reportTask_allDone (c : Coordinator) (a : ReportTaskArgs) :
    (reportTask c a).allDone = c.allDone := by
  unfold reportTask
  split
  · split <;> rfl
  · split
    · split <;> rfl
    · rfl

theorem reapTask_not_inProgress (now : Nat) (t : Task)
    (h : t.state ≠ TaskState.inProgress) : reapTask now t = t := by
  unfold reapTask
  simp [h]

theorem getD_map_reap (l : List Task) (now i : Nat) :
    (l.map (reapTask now)).getD i default = reapTask now (l.getD i default) := by
  rw [List.getD_eq_getElem?_getD, List.getD_eq_getElem?_getD, List.getElem?_map]
  cases l[i]? with
  | none => simp [reapTask]
  | some t => simp

/-- `firstIdle` returns the smallest index of an `IDLE` task. -/
theorem firstIdle_spec (l : List Task) (i : Nat) (h : firstIdle l = some i) :
    i < l.length ∧ (l.getD i default).state = TaskState.idle ∧
    ∀ j, j < i → (l.getD j default).state ≠ TaskState.idle := by
  induction l generalizing i with
  | nil => simp [firstIdle] at h
  | cons t rest ih =>
    by_cases ht : t.state = TaskState.idle
    · simp only [firstIdle, if_pos ht, Option.some.injEq] at h
      subst h
      exact ⟨Nat.succ_pos _, by simpa using ht, fun j hj => absurd hj (Nat.not_lt_zero j)⟩
    · simp only [firstIdle, if_neg ht, Option.map_eq_some'] at h
      obtain ⟨i', hi', rfl⟩ := h
      obtain ⟨h1, h2, h3⟩ := ih i' hi'
      refine ⟨by simpa using Nat.succ_lt_succ h1, by simpa using h2, ?_⟩
      intro j hj
      cases j with
      | zero => simpa using ht
      | succ j' => simpa using h3 j' (Nat.lt_of_succ_lt_succ hj)

theorem getD_set_ne (l : List Task) (j i : Nat) (t : Task) (h : j ≠ i) :
    (l.set j t).getD i default = l.getD i default := by
  rw [List.getD_eq_getElem?_getD, List.getD_eq_getElem?_getD, List.getElem?_set, if_neg h]

/-- The timeout reaper never touches a `COMPLETED` task. -/
theorem checkTimeouts_preserves_completed (l : List Task) (now i : Nat)
    (h : (l.getD i default).state = TaskState.completed) :
    ((l.map (reapTask now)).getD i default).state = TaskState.completed := by
  rw [getD_map_reap, reapTask_not_inProgress]
  · exact h
  · rw [h]
    intro hc
    cases hc

/-- Dispatch (which only moves an `IDLE` task) never touches a `COMPLETED`
task: setting the first idle index preserves completed entries. -/
theorem set_firstIdle_preserves_completed (l : List Task) (j : Nat) (t : Task)
    (hf : firstIdle l = some j) (i : Nat)
    (h : (l.getD i default).state = TaskState.completed) :
    ((l.set j t).getD i default).state = TaskState.completed := by
  obtain ⟨-, hidle, -⟩ := firstIdle_spec l j hf
  have hne : j ≠ i := by
    intro he
    rw [he, h] at hidle
    cases hidle
  rw [getD_set_ne l j i t hne]
  exact h

theorem reducePhase_preserves_completed (c : Coordinator) (now i : Nat)
    (h : (c.reduceTasks.getD i default).state = TaskState.completed) :
    ((reducePhase c now).1.reduceTasks.getD i default).state = TaskState.completed := by
  unfold reducePhase
  split
  · rename_i j hf
    simpa using set_firstIdle_preserves_completed c.reduceTasks j _ hf i h
  · split <;> simpa using h

/-! ## C7: the partitioning hash -/

/-- C7: `ihash` equals the 32-bit FNV-1a hash of the key's UTF-8 bytes
reduced to its low 31 bits (hence it is non-negative and below `2^31`), the
bucket `ihash key % R` is in `[0, R)` for every positive `R`, and the
function is deterministic, so two processes hashing equal keys get equal
buckets. -/
theorem ihash_spec (key : String) (R : Nat) (hR : 0 < R) :
    ihash key = fnv32a ((String.toUTF8 key).toList.map UInt8.toNat) % 2 ^ 31 ∧
    ihash key < 2 ^ 31 ∧
    bucketOf key R < R ∧
    (∀ key2, key2 = key → bucketOf key2 R = bucketOf key R) := by
  have hmask : ihash key = fnv32a ((String.toUTF8 key).toList.map UInt8.toNat) % 2 ^ 31 := by
    have h31 : (0x7fffffff : Nat) = 2 ^ 31 - 1 := by norm_num
    rw [ihash, h31, Nat.and_pow_two_sub_one_eq_mod]
  refine ⟨hmask, ?_, Nat.mod_lt _ hR, fun key2 h2 => by rw [h2]⟩
  rw [hmask]
  exact Nat.mod_lt _ (by norm_num)

/-- Concrete instance of `ihash_spec` at `key = "the"`, `R = 2`. -/
theorem ihash_spec_witness :
    0 < 2 ∧
    (ihash "the" = fnv32a ((String.toUTF8 "the").toList.map UInt8.toNat) % 2 ^ 31 ∧
     ihash "the" < 2 ^ 31 ∧
     bucketOf "the" 2 < 2 ∧
     (∀ key2, key2 = "the" → bucketOf key2 2 = bucketOf "the" 2)) :=
  ⟨by decide, ihash_spec "the" 2 (by decide)⟩

/-! ## C10: the cached `mapDone` flag -/

/-- C10: `mapDone` starts false, is never touched by `ReportTask`, is
monotone under `GetTask`, and can flip to true only in a `GetTask` call that
observes every map task `COMPLETED` (the map-task vector of the resulting
state is all `COMPLETED` at that moment). -/
theorem mapDone_flip_requires_all_maps (c : Coordinator) (now : Nat)
    (a : ReportTaskArgs) (files : List String) (R : Nat) :
    (makeCoordinator files R).mapDone = false ∧
    (reportTask c a).mapDone = c.mapDone ∧
    (c.mapDone = true → (getTask c now).1.mapDone = true) ∧
    ((getTask c now).1.mapDone = true →
      c.mapDone = true ∨ allCompleted (getTask c now).1.mapTasks = true) := by
  refine ⟨rfl, reportTask_mapDone c a, ?_, ?_⟩
  · intro h
    have h1 : (checkTimeouts c now).mapDone = true := by
      rw [checkTimeouts_mapDone]; exact h
    unfold getTask
    simp only [h1, if_true]
    rw [reducePhase_fst_mapDone]
    exact h1
  · intro h
    by_cases hm : c.mapDone = true
    · exact Or.inl hm
    right
    simp only [Bool.not_eq_true] at hm
    have h1 : (checkTimeouts c now).mapDone = false := by
      rw [checkTimeouts_mapDone]; exact hm
    revert h
    unfold getTask
    simp only [h1, Bool.false_eq_true, if_false]
    split
    · rename_i j hf
      intro hcontr
      simp [h1] at hcontr
    · split
      · rename_i hall
        intro _
        rw [reducePhase_fst_mapTasks]
        simpa using hall
      · intro hcontr
        simp [h1] at hcontr

/-- Concrete instance of `mapDone_flip_requires_all_maps`: after map 0 of a
one-file job completes, the next `GetTask` sets `mapDone` and indeed all map
tasks are `COMPLETED`. -/
theorem mapDone_flip_requires_all_maps_witness :
    (getTask oneMapCompleted 1).1.mapDone = true ∧
    (oneMapCompleted.mapDone = true ∨
      allCompleted (getTask oneMapCompleted 1).1.mapTasks = true) :=
  ⟨by decide,
   (mapDone_flip_requires_all_maps oneMapCompleted 1
     { taskType := TaskType.mapTask, taskId := 0, success := true } [] 0).2.2.2
     (by decide)⟩

/-! ## C4: the `allDone` flag and `Done()` -/

/-- C4: `Done()` returns exactly `allDone`; `allDone` starts false, is never
touched by `ReportTask`, is monotone under `GetTask`, and can flip to true
only in a `GetTask` call that observes every reduce task `COMPLETED`. -/
theorem allDone_flip_requires_all_reduces (c : Coordinator) (now : Nat)
    (a : ReportTaskArgs) (files : List String) (R : Nat) :
    done c = c.allDone ∧
    (makeCoordinator files R).allDone = false ∧
    (reportTask c a).allDone = c.allDone ∧
    (c.allDone = true → (getTask c now).1.allDone = true) ∧
    ((getTask c now).1.allDone = true →
      c.allDone = true ∨ allCompleted (getTask c now).1.reduceTasks = true) := by
  refine ⟨rfl, rfl, reportTask_allDone c a, ?_, ?_⟩
  · intro h
    have h1 : (checkTimeouts c now).allDone = true := by
      rw [checkTimeouts_allDone]; exact h
    simp only [getTask]
    split
    · exact reducePhase_allDone_of _ now h1
    · split
      · rename_i j hf
        simpa using h1
      · split
        · exact reducePhase_allDone_of _ now h1
        · exact h1
  · intro h
    by_cases hd : c.allDone = true
    · exact Or.inl hd
    revert h
    simp only [getTask]
    split
    · intro h
      rcases reducePhase_allDone_flip _ now h with h' | h'
      · exact Or.inl (by rw [checkTimeouts_allDone] at h'; exact h')
      · exact Or.inr h'
    · split
      · rename_i j hf
        intro hcontr
        exact absurd hcontr hd
      · split
        · intro h
          rcases reducePhase_allDone_flip _ now h with h' | h'
          · exact Or.inl (by rw [checkTimeouts_allDone] at h'; exact h')
          · exact Or.inr h'
        · intro hcontr
          exact absurd hcontr hd

/-- Concrete instance of `allDone_flip_requires_all_reduces`: with no input
files and no reduce tasks, the first `GetTask` sets `allDone` having observed
the (empty) reduce vector all completed. -/
theorem allDone_flip_requires_all_reduces_witness :
    (getTask (makeCoordinator [] 0) 0).1.allDone = true ∧
    ((makeCoordinator [] 0).allDone = true ∨
      allCompleted (getTask (makeCoordinator [] 0) 0).1.reduceTasks = true) :=
  ⟨by decide,
   (allDone_flip_requires_all_reduces (makeCoordinator [] 0) 0
     { taskType := TaskType.mapTask, taskId := 0, success := true } [] 0).2.2.2.2
     (by decide)⟩

/-! ## C1: reduce dispatch vs. map completion -/

/-- C1 as stated is false on the code: in the reachable state
`lateMapFailure` (map 0 completed, a reduce dispatched, then a late failure
report reset map 0 to `IDLE`), a further `GetTask` still replies `REDUCE`
(dispatching reduce task 1) although not every map task is `COMPLETED`. -/
theorem reduce_dispatched_while_map_not_completed :
    Reachable ["a.txt"] 2 lateMapFailure ∧
    (getTask lateMapFailure 2).2.taskType = TaskType.reduceTask ∧
    allCompleted lateMapFailure.mapTasks = false := by
  refine ⟨?_, by decide, by decide⟩
  exact Reachable.step (Step.report { taskType := TaskType.mapTask, taskId := 0, success := false })
    (Reachable.step (Step.get 1)
      (Reachable.step (Step.report { taskType := TaskType.mapTask, taskId := 0, success := true })
        (Reachable.step (Step.get 0) Reachable.init)))

/-- C1 amended: a `GetTask` reply has task type `REDUCE` only if `mapDone` is
true in the resulting state, and a call that finds `mapDone` still false can
reply `REDUCE` only having observed every map task `COMPLETED` at that
moment.  (After `mapDone` is cached, a late failure report can move a map
task out of `COMPLETED` without blocking reduce dispatch, as
`reduce_dispatched_while_map_not_completed` shows.) -/
theorem reduce_reply_requires_mapDone (c : Coordinator) (now : Nat) :
    ((getTask c now).2.taskType = TaskType.reduceTask → (getTask c now).1.mapDone = true) ∧
    (c.mapDone = false → (getTask c now).2.taskType = TaskType.reduceTask →
      allCompleted (getTask c now).1.mapTasks = true) := by
  constructor
  · intro h
    by_cases hm : c.mapDone = true
    · have h1 : (checkTimeouts c now).mapDone = true := by
        rw [checkTimeouts_mapDone]; exact hm
      simp only [getTask, h1, if_true]
      rw [reducePhase_fst_mapDone]
      exact h1
    · simp only [Bool.not_eq_true] at hm
      have h1 : (checkTimeouts c now).mapDone = false := by
        rw [checkTimeouts_mapDone]; exact hm
      revert h
      simp only [getTask, h1, Bool.false_eq_true, if_false]
      split
      · rename_i j hf
        intro hcontr
        simp at hcontr
      · split
        · rename_i hall
          intro _
          rw [reducePhase_fst_mapDone]
        · intro hcontr
          simp [bareReply] at hcontr
  · intro hm
    have h1 : (checkTimeouts c now).mapDone = false := by
      rw [checkTimeouts_mapDone]; exact hm
    simp only [getTask, h1, Bool.false_eq_true, if_false]
    split
    · rename_i j hf
      intro hcontr
      simp at hcontr
    · split
      · rename_i hall
        intro _
        rw [reducePhase_fst_mapTasks]
        exact hall
      · intro hcontr
        simp [bareReply] at hcontr

/-- Concrete instance of `reduce_reply_requires_mapDone`: the `GetTask` that
first dispatches a reduce task in the one-file scenario finds `mapDone`
false and every map task `COMPLETED`. -/
theorem reduce_reply_requires_mapDone_witness :
    (getTask oneMapCompleted 1).2.taskType = TaskType.reduceTask ∧
    (getTask oneMapCompleted 1).1.mapDone = true ∧
    allCompleted (getTask oneMapCompleted 1).1.mapTasks = true :=
  ⟨by decide,
   (reduce_reply_requires_mapDone oneMapCompleted 1).1 (by decide),
   (reduce_reply_requires_mapDone oneMapCompleted 1).2 (by decide) (by decide)⟩

/-! ## C3: is `COMPLETED` terminal? -/

/-- C3 as stated is false on the code: in the reachable state
`oneMapCompleted` map task 0 is `COMPLETED`, yet a `ReportTask` call
reporting failure for it resets it to `IDLE`. -/
theorem completed_task_reset_by_failure_report :
    Reachable ["a.txt"] 1 oneMapCompleted ∧
    (oneMapCompleted.mapTasks.getD 0 default).state = TaskState.completed ∧
    ((reportTask oneMapCompleted
        { taskType := TaskType.mapTask, taskId := 0, success := false }).mapTasks.getD 0
      default).state = TaskState.idle := by
  refine ⟨?_, by decide, by decide⟩
  exact Reachable.step (Step.report { taskType := TaskType.mapTask, taskId := 0, success := true })
    (Reachable.step (Step.get 0) Reachable.init)

/-- C3 amended: a `COMPLETED` task is never moved by `GetTask` (including
the stall reap) nor by a `ReportTask` that reports success; but a
`ReportTask` that reports failure for an in-range task id resets that task
to `IDLE` even when it is `COMPLETED`. -/
theorem completed_preserved_except_failure_report (c : Coordinator) (now i : Nat)
    (a : ReportTaskArgs) :
    ((c.mapTasks.getD i default).state = TaskState.completed →
      ((getTask c now).1.mapTasks.getD i default).state = TaskState.completed) ∧
    ((c.reduceTasks.getD i default).state = TaskState.completed →
      ((getTask c now).1.reduceTasks.getD i default).state = TaskState.completed) ∧
    (a.success = true →
      ((c.mapTasks.getD i default).state = TaskState.completed →
        ((reportTask c a).mapTasks.getD i default).state = TaskState.completed) ∧
      ((c.reduceTasks.getD i default).state = TaskState.completed →
        ((reportTask c a).reduceTasks.getD i default).state = TaskState.completed)) ∧
    (a.success = false → a.taskType = TaskType.mapTask → 0 ≤ a.taskId →
      a.taskId < (c.mapTasks.length : Int) →
      ((reportTask c a).mapTasks.getD a.taskId.toNat default).state = TaskState.idle) := by
  refine ⟨?_, ?_, ?_, ?_⟩
  · intro h
    have h1 := checkTimeouts_preserves_completed c.mapTasks now i h
    simp only [getTask]
    split
    · rw [reducePhase_fst_mapTasks]
      exact h1
    · split
      · rename_i j hf
        simpa using set_firstIdle_preserves_completed _ j _ hf i h1
      · split
        · rw [reducePhase_fst_mapTasks]
          exact h1
        · exact h1
  · intro h
    have h1 := checkTimeouts_preserves_completed c.reduceTasks now i h
    simp only [getTask]
    split
    · exact reducePhase_preserves_completed _ now i h1
    · split
      · rename_i j hf
        simpa [checkTimeouts] using h1
      · split
        · exact reducePhase_preserves_completed _ now i h1
        · exact h1
  · intro hs
    constructor
    · intro h
      unfold reportTask
      split
      · split
        · rename_i hrange
          simp only []
          unfold reportUpdate
          by_cases hij : a.taskId.toNat = i
          · subst hij
            have hlt : a.taskId.toNat < c.mapTasks.length := by omega
            rw [List.getD_eq_getElem?_getD, List.getElem?_set, if_pos rfl, if_pos hlt]
            simp [hs]
          · rw [getD_set_ne _ _ _ _ hij]
            exact h
        · exact h
      · split
        · split
          · exact h
          · exact h
        · exact h
    · intro h
      unfold reportTask
      split
      · split
        · exact h
        · exact h
      · split
        · split
          · rename_i hrange
            simp only []
            unfold reportUpdate
            by_cases hij : a.taskId.toNat = i
            · subst hij
              have hlt : a.taskId.toNat < c.reduceTasks.length := by omega
              rw [List.getD_eq_getElem?_getD, List.getElem?_set, if_pos rfl, if_pos hlt]
              simp [hs]
            · rw [getD_set_ne _ _ _ _ hij]
              exact h
          · exact h
        · exact h
  · intro hs hty h0 hlen
    unfold reportTask
    rw [if_pos hty, if_pos ⟨h0, hlen⟩]
    simp only []
    unfold reportUpdate
    have hlt : a.taskId.toNat < c.mapTasks.length := by omega
    rw [List.getD_eq_getElem?_getD, List.getElem?_set, if_pos rfl, if_pos hlt]
    simp [hs]

/-- Concrete instance of `completed_preserved_except_failure_report` in the
`lateMapFailure` scenario: reduce task 0 is `COMPLETED`-free there, so we use
the completed map task of `oneMapCompleted`: `GetTask` and a success report
keep it `COMPLETED`, and a failure report resets it to `IDLE`. -/
theorem completed_preserved_except_failure_report_witness :
    ((getTask oneMapCompleted 1).1.mapTasks.getD 0 default).state = TaskState.completed ∧
    ((reportTask oneMapCompleted
        { taskType := TaskType.mapTask, taskId := 0, success := true }).mapTasks.getD 0
      default).state = TaskState.completed ∧
    ((reportTask oneMapCompleted
        { taskType := TaskType.mapTask, taskId := 0, success := false }).mapTasks.getD
      (Int.toNat 0) default).state = TaskState.idle :=
  ⟨(completed_preserved_except_failure_report oneMapCompleted 1 0
      { taskType := TaskType.mapTask, taskId := 0, success := true }).1 (by decide),
   ((completed_preserved_except_failure_report oneMapCompleted 1 0
      { taskType := TaskType.mapTask, taskId := 0, success := true }).2.2.1 (by decide)).1
     (by decide),
   (completed_preserved_except_failure_report oneMapCompleted 1 0
      { taskType := TaskType.mapTask, taskId := 0, success := false }).2.2.2 (by decide)
     (by decide) (by decide) (by decide)⟩

/-! ## C9: empty input -/

/-- C9 as stated is false on the code: with `M = 0` and `R = 3` the first
`GetTask` does not reply `EXIT`; it dispatches reduce task 0 (the reduce
tasks start `IDLE`, not `COMPLETED`). -/
theorem empty_input_first_reply_not_exit :
    (getTask (makeCoordinator [] 3) 0).2.taskType = TaskType.reduceTask ∧
    (getTask (makeCoordinator [] 3) 0).2.taskType ≠ TaskType.exitTask := by
  decide

theorem checkTimeouts_make_empty (R now : Nat) :
    checkTimeouts (makeCoordinator [] R) now = makeCoordinator [] R := by
  have h1 : (makeCoordinator [] R).mapTasks.map (reapTask now) =
      (makeCoordinator [] R).mapTasks := by
    simp [makeCoordinator]
  have h2 : (makeCoordinator [] R).reduceTasks.map (reapTask now) =
      (makeCoordinator [] R).reduceTasks := by
    show ((List.range R).map _).map (reapTask now) = _
    rw [List.map_map]
    exact List.map_congr_left (fun a _ => by simp [Function.comp, reapTask])
  unfold checkTimeouts
  rw [h1, h2]

/-- C9 amended: for a coordinator created with an empty input file list, the
first `GetTask` sets the map phase done and replies `EXIT` exactly when
`R = 0`; for `R > 0` it instead dispatches reduce task 0 with a `REDUCE`
reply. -/
theorem getTask_empty_input (R now : Nat) :
    ((getTask (makeCoordinator [] R) now).2.taskType = TaskType.exitTask ↔ R = 0) ∧
    (0 < R → (getTask (makeCoordinator [] R) now).2.taskType = TaskType.reduceTask ∧
      (getTask (makeCoordinator [] R) now).2.taskId = 0) := by
  have h0 := checkTimeouts_make_empty R now
  have hmd : (makeCoordinator [] R).mapDone = false := rfl
  have hmt : (makeCoordinator [] R).mapTasks = [] := by
    simp [makeCoordinator]
  have hstep : getTask (makeCoordinator [] R) now =
      reducePhase { makeCoordinator [] R with mapDone := true } now := by
    simp only [getTask, h0, hmd, Bool.false_eq_true, if_false, hmt, firstIdle, allCompleted,
      List.all_nil, if_true]
  rw [hstep]
  cases R with
  | zero =>
    constructor
    · simp [reducePhase, makeCoordinator, firstIdle, allCompleted, bareReply]
    · intro h
      exact absurd h (lt_irrefl 0)
  | succ n =>
    have hfi : firstIdle ({ makeCoordinator [] (n + 1) with mapDone := true }).reduceTasks =
        some 0 := by
      show firstIdle ((List.range (n + 1)).map _) = some 0
      rw [List.range_succ_eq_map]
      simp [firstIdle]
    simp only [reducePhase, hfi]
    constructor
    · simp
    · intro _
      constructor <;> trivial

/-- Concrete instance of `getTask_empty_input` at `R = 3`, `now = 0`. -/
theorem getTask_empty_input_witness :
    0 < 3 ∧
    ((getTask (makeCoordinator [] 3) 0).2.taskType = TaskType.reduceTask ∧
     (getTask (makeCoordinator [] 3) 0).2.taskId = 0) :=
  ⟨by decide, (getTask_empty_input 3 0).2 (by decide)⟩

/-! ## C5: stall reap followed by lowest-index map dispatch -/

/-- C5: `GetTask` first applies the stall reap to every task of both vectors
(resetting to `IDLE` exactly the `IN_PROGRESS` tasks whose `start_time` is
more than 10 seconds old), and then, while `mapDone` is false, dispatches the
`IDLE` map task of smallest index `i` of the reaped table: it becomes
`IN_PROGRESS` with `start_time = now`, and the reply is `MAP` with task id
`i`, the task's input filename and `nReduce`. -/
theorem getTask_reaps_then_dispatches_first_idle_map (c : Coordinator) (now i : Nat) :
    ((checkTimeouts c now).mapTasks.getD i default =
      reapTask now (c.mapTasks.getD i default)) ∧
    ((checkTimeouts c now).reduceTasks.getD i default =
      reapTask now (c.reduceTasks.getD i default)) ∧
    (∀ t : Task,
      (t.state = TaskState.inProgress ∧ now - t.startTime > 10 →
        reapTask now t = { t with state := TaskState.idle }) ∧
      (¬(t.state = TaskState.inProgress ∧ now - t.startTime > 10) → reapTask now t = t)) ∧
    (c.mapDone = false → firstIdle (checkTimeouts c now).mapTasks = some i →
      (∀ j, j < i → ((checkTimeouts c now).mapTasks.getD j default).state ≠ TaskState.idle) ∧
      ((checkTimeouts c now).mapTasks.getD i default).state = TaskState.idle ∧
      (getTask c now).1.mapTasks =
        (checkTimeouts c now).mapTasks.set i
          { (checkTimeouts c now).mapTasks.getD i default with
            state := TaskState.inProgress, startTime := now } ∧
      (getTask c now).2 =
        { taskType := TaskType.mapTask, taskId := i,
          fileName := ((checkTimeouts c now).mapTasks.getD i default).fileNames.getD 0 "",
          fileNames := [], nReduce := c.nReduce, mapTaskId := 0 }) := by
  refine ⟨getD_map_reap c.mapTasks now i, getD_map_reap c.reduceTasks now i, ?_, ?_⟩
  · intro t
    constructor
    · intro h
      unfold reapTask
      rw [if_pos h]
    · intro h
      unfold reapTask
      rw [if_neg h]
  · intro hm hf
    obtain ⟨hlen, hidle, hmin⟩ := firstIdle_spec _ _ hf
    have h1 : (checkTimeouts c now).mapDone = false := by
      rw [checkTimeouts_mapDone]; exact hm
    refine ⟨fun j hj => hmin j hj, hidle, ?_, ?_⟩
    · simp only [getTask, h1, Bool.false_eq_true, if_false, hf]
    · simp only [getTask, h1, Bool.false_eq_true, if_false, hf]
      rw [checkTimeouts_nReduce]

/-- Concrete instance of `getTask_reaps_then_dispatches_first_idle_map`: a
fresh two-file coordinator dispatches map task 0 with its input filename. -/
theorem getTask_reaps_then_dispatches_first_idle_map_witness :
    (makeCoordinator ["a.txt", "b.txt"] 2).mapDone = false ∧
    firstIdle (checkTimeouts (makeCoordinator ["a.txt", "b.txt"] 2) 0).mapTasks = some 0 ∧
    (getTask (makeCoordinator ["a.txt", "b.txt"] 2) 0).2 =
      { taskType := TaskType.mapTask, taskId := 0,
        fileName := ((checkTimeouts (makeCoordinator ["a.txt", "b.txt"] 2) 0).mapTasks.getD 0
          default).fileNames.getD 0 "",
        fileNames := [], nReduce := (makeCoordinator ["a.txt", "b.txt"] 2).nReduce,
        mapTaskId := 0 } :=
  ⟨by decide, by decide,
   ((getTask_reaps_then_dispatches_first_idle_map (makeCoordinator ["a.txt", "b.txt"] 2) 0
      0).2.2.2 (by decide) (by decide)).2.2.2⟩

/-! ## C6: helper lemmas on sorting and grouping -/

/-- In a sorted list `kv :: rest`, every record that survives
`dropWhile (key == kv.key)` has a strictly larger key. -/
theorem keys_gt_of_sorted_dropWhile (kv : KeyValue) (rest : List KeyValue)
    (hs : (kv :: rest).Pairwise (fun a b => byKeyLE a b = true)) :
    ∀ x ∈ rest.dropWhile (fun y => y.key == kv.key), kv.key < x.key := by
  intro x hx
  have hrest : rest.Pairwise (fun a b => byKeyLE a b = true) := (List.pairwise_cons.mp hs).2
  cases hd : rest.dropWhile (fun y => y.key == kv.key) with
  | nil => rw [hd] at hx; cases hx
  | cons h0 tl =>
    have hh0ne : h0.key ≠ kv.key := by
      have h := List.head?_dropWhile_not (fun y => y.key == kv.key) rest
      rw [hd] at h
      simp only [List.head?_cons] at h
      simpa [beq_iff_eq] using h
    have hh0rest : h0 ∈ rest := by
      have : h0 ∈ rest.dropWhile (fun y => y.key == kv.key) := by rw [hd]; exact List.mem_cons_self _ _
      exact (List.dropWhile_sublist _).subset this
    have hkvh0 : kv.key < h0.key := by
      have hle : byKeyLE kv h0 = true := List.rel_of_pairwise_cons hs hh0rest
      simp only [byKeyLE, decide_eq_true_iff] at hle
      exact lt_of_le_of_ne hle (Ne.symm hh0ne)
    rw [hd] at hx
    rcases List.mem_cons.mp hx with rfl | hx'
    · exact hkvh0
    · have hdp : (h0 :: tl).Pairwise (fun a b => byKeyLE a b = true) := by
        rw [← hd]
        exact List.Pairwise.sublist (List.dropWhile_sublist _) hrest
      have hle : byKeyLE h0 x = true := List.rel_of_pairwise_cons hdp hx'
      simp only [byKeyLE, decide_eq_true_iff] at hle
      exact lt_of_lt_of_le hkvh0 hle

/-- In a sorted list `kv :: rest`, the records of `rest` with key `kv.key`
are exactly the leading run. -/
theorem filter_eq_takeWhile_of_sorted (kv : KeyValue) (rest : List KeyValue)
    (hs : (kv :: rest).Pairwise (fun a b => byKeyLE a b = true)) :
    rest.filter (fun y => y.key == kv.key) = rest.takeWhile (fun y => y.key == kv.key) := by
  have htw : ∀ a ∈ rest.takeWhile (fun y => y.key == kv.key), (a.key == kv.key) = true :=
    fun a ha => @List.mem_takeWhile_imp _ (fun y => y.key == kv.key) rest a ha
  conv_lhs => rw [← List.takeWhile_append_dropWhile (fun y => y.key == kv.key) rest]
  rw [List.filter_append]
  rw [List.filter_eq_self.mpr htw]
  rw [List.filter_eq_nil_iff.mpr ?_, List.append_nil]
  intro a ha
  have := keys_gt_of_sorted_dropWhile kv rest hs a ha
  simp only [beq_iff_eq]
  intro hk
  rw [hk] at this
  exact lt_irrefl _ this

theorem reduceGroupsAux_key_mem (f : String → List String → String) (fuel : Nat)
    (l : List KeyValue) :
    ∀ p ∈ reduceGroupsAux f fuel l, p.1 ∈ l.map KeyValue.key := by
  induction fuel generalizing l with
  | zero => intro p hp; cases l <;> simp [reduceGroupsAux] at hp
  | succ fuel ih =>
    cases l with
    | nil => intro p hp; simp [reduceGroupsAux] at hp
    | cons kv rest =>
      intro p hp
      rw [reduceGroupsAux] at hp
      rcases List.mem_cons.mp hp with rfl | hp'
      · simp
      · have := ih _ p hp'
        simp only [List.mem_map] at this ⊢
        obtain ⟨x, hx, hxk⟩ := this
        exact ⟨x, List.mem_cons_of_mem _ ((List.dropWhile_sublist _).subset hx), hxk⟩

/-- The grouping loop on a sorted record list: output keys are strictly
increasing, they are exactly the distinct input keys, and each output value
applies the reduce callback to the run of values of that key. -/
theorem reduceGroupsAux_sorted_spec (f : String → List String → String) (fuel : Nat) :
    ∀ l : List KeyValue, l.length ≤ fuel →
      l.Pairwise (fun a b => byKeyLE a b = true) →
      ((reduceGroupsAux f fuel l).map Prod.fst).Pairwise (· < ·) ∧
      (∀ k, k ∈ (reduceGroupsAux f fuel l).map Prod.fst ↔ k ∈ l.map KeyValue.key) ∧
      (∀ p ∈ reduceGroupsAux f fuel l,
        p.2 = f p.1 ((l.filter (fun y => y.key == p.1)).map KeyValue.value)) := by
  induction fuel with
  | zero =>
    intro l hl _
    have : l = [] := List.length_eq_zero.mp (Nat.le_zero.mp hl)
    subst this
    simp [reduceGroupsAux]
  | succ fuel ih =>
    intro l hl hs
    cases l with
    | nil => simp [reduceGroupsAux]
    | cons kv rest =>
      have hrest : rest.Pairwise (fun a b => byKeyLE a b = true) := (List.pairwise_cons.mp hs).2
      have hlen : (rest.dropWhile (fun y => y.key == kv.key)).length ≤ fuel := by
        have h1 : (rest.dropWhile (fun y => y.key == kv.key)).length ≤ rest.length :=
          (List.dropWhile_sublist _).length_le
        have h2 : rest.length ≤ fuel := by
          simp only [List.length_cons] at hl
          omega
        exact le_trans h1 h2
      have hdpair : (rest.dropWhile (fun y => y.key == kv.key)).Pairwise
          (fun a b => byKeyLE a b = true) :=
        List.Pairwise.sublist (List.dropWhile_sublist _) hrest
      obtain ⟨ih1, ih2, ih3⟩ := ih (rest.dropWhile (fun y => y.key == kv.key)) hlen hdpair
      have hgt := keys_gt_of_sorted_dropWhile kv rest hs
      rw [reduceGroupsAux]
      refine ⟨?_, ?_, ?_⟩
      · rw [List.map_cons]
        rw [List.pairwise_cons]
        refine ⟨?_, ih1⟩
        intro k hk
        have hkmem := (ih2 k).mp hk
        simp only [List.mem_map] at hkmem
        obtain ⟨x, hx, rfl⟩ := hkmem
        exact hgt x hx
      · intro k
        rw [List.map_cons, List.mem_cons, List.map_cons, List.mem_cons]
        constructor
        · rintro (rfl | hk)
          · exact Or.inl rfl
          · have := (ih2 k).mp hk
            simp only [List.mem_map] at this ⊢
            obtain ⟨x, hx, hxk⟩ := this
            exact Or.inr ⟨x, (List.dropWhile_sublist _).subset hx, hxk⟩
        · rintro (rfl | hk)
          · exact Or.inl rfl
          · simp only [List.mem_map] at hk
            obtain ⟨x, hx, rfl⟩ := hk
            rw [← List.takeWhile_append_dropWhile (fun y => y.key == kv.key) rest] at hx
            rcases List.mem_append.mp hx with hx' | hx'
            · left
              have := List.mem_takeWhile_imp hx'
              simpa [beq_iff_eq] using this
            · right
              refine (ih2 x.key).mpr ?_
              exact List.mem_map_of_mem KeyValue.key hx'
      · intro p hp
        rcases List.mem_cons.mp hp with rfl | hp'
        · have hfil : (kv :: rest).filter (fun y => y.key == kv.key) =
              kv :: rest.takeWhile (fun y => y.key == kv.key) := by
            rw [List.filter_cons]
            simp only [beq_self_eq_true, if_true]
            rw [filter_eq_takeWhile_of_sorted kv rest hs]
          show f kv.key (kv.value :: (rest.takeWhile (fun y => y.key == kv.key)).map KeyValue.value) =
            f kv.key (((kv :: rest).filter (fun y => y.key == kv.key)).map KeyValue.value)
          rw [hfil, List.map_cons]
        · have hval := ih3 p hp'
          have hkey := reduceGroupsAux_key_mem f fuel _ p hp'
          have hklt : kv.key < p.1 := by
            simp only [List.mem_map] at hkey
            obtain ⟨x, hx, hxk⟩ := hkey
            rw [← hxk]
            exact hgt x hx
          have hkvne : (kv.key == p.1) = false := by
            simp only [beq_eq_false_iff_ne]
            exact ne_of_lt hklt
          have hfil : (kv :: rest).filter (fun y => y.key == p.1) =
              (rest.dropWhile (fun y => y.key == kv.key)).filter (fun y => y.key == p.1) := by
            rw [List.filter_cons]
            simp only [hkvne, if_false, Bool.false_eq_true]
            conv_lhs => rw [← List.takeWhile_append_dropWhile (fun y => y.key == kv.key) rest]
            rw [List.filter_append, List.filter_eq_nil_iff.mpr ?_, List.nil_append]
            intro a ha
            have hak := List.mem_takeWhile_imp ha
            simp only [beq_iff_eq] at hak ⊢
            rw [hak]
            intro hk
            rw [hk] at hklt
            exact lt_irrefl _ hklt
          rw [hfil]
          exact hval

theorem fsSet_same (fs : FS) (p v : String) : fsSet fs p v p = some v := by
  simp [fsSet]

theorem fsSet_other (fs : FS) (p v q : String) (h : q ≠ p) : fsSet fs p v q = fs q := by
  simp [fsSet, h]

theorem fsRemove_same (fs : FS) (p : String) : fsRemove fs p p = none := by
  simp [fsRemove]

theorem fsRemove_other (fs : FS) (p q : String) (h : q ≠ p) : fsRemove fs p q = fs q := by
  simp [fsRemove, h]

theorem fsRename_dst (fs : FS) (src dst v : String) (h : fs src = some v) :
    fsRename fs src dst dst = some v := by
  simp only [fsRename, h]
  exact fsSet_same _ _ _

/-! ## C6: content of a successful reduce execution -/

/-- C6: a successful reduce execution writes to `mr-out-<r>` exactly the
grouped output lines.  Go's `sort.Sort` is unstable, so it is modelled by
its contract: `sorted` may be any permutation of the decoded records that is
ordered by key, and every conclusion holds for all of them.  The emitted
keys are strictly increasing — the lines are sorted ascending by key, with
exactly one line per distinct key among the records — and each line's output
is the user reduce function applied to that key and the list of all values
associated with it: the run of that key's values in `sorted`, which contains
each associated value exactly once (it is a permutation of the values in
decode order). -/
theorem reduce_output_of_sorted_records (kva sorted : List KeyValue)
    (reducef : String → List String → String) (r : Nat) (tmpName : String) (fs : FS)
    (hperm : sorted.Perm kva)
    (hsort : sorted.Pairwise (fun a b => byKeyLE a b = true)) :
    (performReduceTaskSorted sorted reducef r tmpName false false fs).2 = true ∧
    (performReduceTaskSorted sorted reducef r tmpName false false fs).1 (outFile r) =
      some (linesOut (reduceGroups reducef sorted)) ∧
    ((reduceGroups reducef sorted).map Prod.fst).Pairwise (· < ·) ∧
    (∀ k, k ∈ (reduceGroups reducef sorted).map Prod.fst ↔ k ∈ kva.map KeyValue.key) ∧
    (∀ p ∈ reduceGroups reducef sorted,
      p.2 = reducef p.1 ((sorted.filter (fun y => y.key == p.1)).map KeyValue.value) ∧
      ((sorted.filter (fun y => y.key == p.1)).map KeyValue.value).Perm
        ((kva.filter (fun y => y.key == p.1)).map KeyValue.value)) := by
  obtain ⟨h1, h2, h3⟩ := reduceGroupsAux_sorted_spec reducef sorted.length sorted
    (le_refl _) hsort
  refine ⟨rfl, ?_, h1, ?_, ?_⟩
  · have hcontent : (fsSet (fsSet fs tmpName "") tmpName
        (linesOut (reduceGroups reducef sorted))) tmpName =
        some (linesOut (reduceGroups reducef sorted)) := fsSet_same _ _ _
    simp only [performReduceTaskSorted, Bool.false_eq_true, if_false]
    exact fsRename_dst _ _ _ _ hcontent
  · intro k
    exact (h2 k).trans (hperm.map KeyValue.key).mem_iff
  · intro p hp
    exact ⟨h3 p hp, (hperm.filter _).map KeyValue.value⟩

/-- Concrete instance of `reduce_output_of_sorted_records` on a single
decoded record (the only sorted permutation of it is itself). -/
theorem reduce_output_of_sorted_records_witness :
    [(⟨"b", "1"⟩ : KeyValue)].Perm [⟨"b", "1"⟩] ∧
    ([(⟨"b", "1"⟩ : KeyValue)].Pairwise (fun a b => byKeyLE a b = true)) ∧
    (performReduceTaskSorted [⟨"b", "1"⟩] countReduce 0 "t0" false false fsEmpty).2 =
      true ∧
    ("b", "1") ∈ reduceGroups countReduce [(⟨"b", "1"⟩ : KeyValue)] ∧
    ("b", "1").2 = countReduce ("b", "1").1
      (([(⟨"b", "1"⟩ : KeyValue)].filter (fun y => y.key == ("b", "1").1)).map
        KeyValue.value) :=
  ⟨List.Perm.refl _, by simp,
   (reduce_output_of_sorted_records [⟨"b", "1"⟩] [⟨"b", "1"⟩] countReduce 0 "t0" fsEmpty
     (List.Perm.refl _) (by simp)).1,
   by decide,
   ((reduce_output_of_sorted_records [⟨"b", "1"⟩] [⟨"b", "1"⟩] countReduce 0 "t0" fsEmpty
     (List.Perm.refl _) (by simp)).2.2.2.2 ("b", "1") (by decide)).1⟩

/-! ## C8: error handling in the reduce read phase -/

/-- C8 as stated is false on the code: an intermediate file whose open fails
for a reason other than non-existence is silently skipped, and a decode
error is silently treated as end of stream; in both cases the reduce task
still reports success. -/
theorem reduce_io_error_does_not_fail :
    (performReduceTask [OpenResult.errOther] countReduce 0 "t0" false false fsEmpty).2 = true ∧
    (performReduceTask [OpenResult.ok [] true] countReduce 0 "t0" false false fsEmpty).2 =
      true :=
  ⟨rfl, rfl⟩

/-- C8 amended: a missing intermediate file contributes zero records and does
not cause failure; but the same holds for any other open error, and a decode
error merely stops reading that file early; the reduce task reports failure
exactly when temporary-file creation or the final rename fails. -/
theorem reduce_read_errors_tolerated (files : List OpenResult)
    (reducef : String → List String → String) (r : Nat) (tmpName : String)
    (cf rf : Bool) (fs : FS) :
    readIntermediate OpenResult.errNotExist = [] ∧
    readIntermediate OpenResult.errOther = [] ∧
    (∀ recs e, readIntermediate (OpenResult.ok recs e) = recs) ∧
    (performReduceTask files reducef r tmpName cf rf fs).2 = (!cf && !rf) := by
  refine ⟨rfl, rfl, fun recs e => rfl, ?_⟩
  simp only [performReduceTask]
  cases cf <;> cases rf <;> simp

/-! ## C2: helper lemmas on the map-side write loops -/

theorem fsRename_other (fs : FS) (src dst q : String) (h1 : q ≠ src) (h2 : q ≠ dst) :
    fsRename fs src dst q = fs q := by
  cases h : fs src with
  | none => simp [fsRename, h]
  | some v =>
    simp only [fsRename, h]
    rw [fsSet_other _ _ _ _ h2, fsRemove_other _ _ _ h1]

theorem fsRename_src (fs : FS) (src dst : String) (h : src ≠ dst) :
    fsRename fs src dst src = none := by
  cases hv : fs src with
  | none => simp [fsRename, hv]
  | some v =>
    simp only [fsRename, hv]
    rw [fsSet_other _ _ _ _ h, fsRemove_same]

theorem removeAll_apply (ps : List String) (fs : FS) (q : String) :
    removeAll fs ps q = if q ∈ ps then none else fs q := by
  induction ps generalizing fs with
  | nil => simp [removeAll]
  | cons p ps ih =>
    rw [removeAll, ih]
    by_cases hq : q ∈ ps
    · simp [hq]
    · by_cases hqp : q = p
      · simp [hq, hqp, fsRemove_same]
      · simp [hq, hqp, fsRemove_other _ _ _ hqp]

theorem createTemps_untouched (tmp : Nat → String) (fail : Nat → Bool) :
    ∀ (idxs : List Nat) (fs : FS) (created : List String) (q : String),
      q ∉ created → (∀ i ∈ idxs, q ≠ tmp i) →
      (createTemps tmp fail idxs fs created).1 q = fs q := by
  intro idxs
  induction idxs with
  | nil => intro fs created q _ _; rfl
  | cons r rest ih =>
    intro fs created q h1 h2
    rw [createTemps]
    by_cases hf : fail r = true
    · rw [if_pos hf]
      simp only [removeAll_apply]
      rw [if_neg h1]
    · rw [if_neg hf]
      rw [ih _ _ q ?_ ?_]
      · exact fsSet_other _ _ _ _ (h2 r (List.mem_cons_self r rest))
      · intro hq
        rcases List.mem_append.mp hq with h | h
        · exact h1 h
        · simp only [List.mem_singleton] at h
          exact h2 r (List.mem_cons_self r rest) h
      · intro i hi
        exact h2 i (List.mem_cons_of_mem r hi)

theorem createTemps_fail_temp_none (tmp : Nat → String) (fail : Nat → Bool) :
    ∀ (idxs : List Nat) (fs : FS) (created : List String) (i : Nat),
      fs (tmp i) = none ∨ tmp i ∈ created →
      (createTemps tmp fail idxs fs created).2 = false →
      (createTemps tmp fail idxs fs created).1 (tmp i) = none := by
  intro idxs
  induction idxs with
  | nil =>
    intro fs created i _ hfalse
    cases hfalse
  | cons r rest ih =>
    intro fs created i hinv hfalse
    rw [createTemps] at hfalse ⊢
    by_cases hf : fail r = true
    · rw [if_pos hf]
      simp only [removeAll_apply]
      rcases hinv with h | h
      · split
        · rfl
        · exact h
      · rw [if_pos h]
    · rw [if_neg hf] at hfalse ⊢
      apply ih _ _ i ?_ hfalse
      by_cases hj : tmp i = tmp r
      · right
        rw [hj]
        exact List.mem_append_right _ (List.mem_singleton_self _)
      · rcases hinv with h | h
        · left
          rw [fsSet_other _ _ _ _ hj]
          exact h
        · right
          exact List.mem_append_left _ h

theorem createTemps_success_of_no_fail (tmp : Nat → String) (fail : Nat → Bool) :
    ∀ (idxs : List Nat) (fs : FS) (created : List String),
      (∀ i ∈ idxs, fail i = false) →
      (createTemps tmp fail idxs fs created).2 = true := by
  intro idxs
  induction idxs with
  | nil => intro fs created _; rfl
  | cons r rest ih =>
    intro fs created h
    rw [createTemps, if_neg (by simp [h r (List.mem_cons_self r rest)])]
    exact ih _ _ (fun i hi => h i (List.mem_cons_of_mem r hi))

theorem writeTemps_untouched (tmp : Nat → String) (content : Nat → String)
    (fail : Nat → Bool) (allTemps : List String) :
    ∀ (idxs : List Nat) (fs : FS) (q : String),
      q ∉ allTemps → (∀ i ∈ idxs, q ≠ tmp i) →
      (writeTemps tmp content fail allTemps idxs fs).1 q = fs q := by
  intro idxs
  induction idxs with
  | nil => intro fs q _ _; rfl
  | cons r rest ih =>
    intro fs q h1 h2
    rw [writeTemps]
    by_cases hf : fail r = true
    · rw [if_pos hf]
      simp only [removeAll_apply]
      rw [if_neg h1]
    · rw [if_neg hf]
      rw [ih _ q h1 (fun i hi => h2 i (List.mem_cons_of_mem r hi))]
      exact fsSet_other _ _ _ _ (h2 r (List.mem_cons_self r rest))

theorem writeTemps_fail_apply (tmp : Nat → String) (content : Nat → String)
    (fail : Nat → Bool) (allTemps : List String) :
    ∀ (idxs : List Nat) (fs : FS),
      (∀ i ∈ idxs, tmp i ∈ allTemps) →
      (writeTemps tmp content fail allTemps idxs fs).2 = false →
      ∀ q, (writeTemps tmp content fail allTemps idxs fs).1 q =
        if q ∈ allTemps then none else fs q := by
  intro idxs
  induction idxs with
  | nil =>
    intro fs _ hfalse q
    cases hfalse
  | cons r rest ih =>
    intro fs hmem hfalse q
    rw [writeTemps] at hfalse ⊢
    by_cases hf : fail r = true
    · rw [if_pos hf]
      simp only [removeAll_apply]
    · rw [if_neg hf] at hfalse ⊢
      rw [ih _ (fun i hi => hmem i (List.mem_cons_of_mem r hi)) hfalse q]
      by_cases hq : q ∈ allTemps
      · simp [hq]
      · rw [if_neg hq, if_neg hq]
        exact fsSet_other _ _ _ _ (fun he =>
          hq (he ▸ hmem r (List.mem_cons_self r rest)))

theorem writeTemps_success_of_no_fail (tmp : Nat → String) (content : Nat → String)
    (fail : Nat → Bool) (allTemps : List String) :
    ∀ (idxs : List Nat) (fs : FS),
      (∀ i ∈ idxs, fail i = false) →
      (writeTemps tmp content fail allTemps idxs fs).2 = true := by
  intro idxs
  induction idxs with
  | nil => intro fs _; rfl
  | cons r rest ih =>
    intro fs h
    rw [writeTemps, if_neg (by simp [h r (List.mem_cons_self r rest)])]
    exact ih _ (fun i hi => h i (List.mem_cons_of_mem r hi))

theorem renameFold_untouched (tmp : Nat → String) (mapId : Nat) :
    ∀ (pre : List Nat) (fs : FS) (q : String),
      (∀ i ∈ pre, q ≠ tmp i ∧ q ≠ interFile mapId i) →
      renameFold tmp mapId fs pre q = fs q := by
  intro pre
  induction pre with
  | nil => intro fs q _; rfl
  | cons a pre ih =>
    intro fs q h
    have hcons : renameFold tmp mapId fs (a :: pre) =
        renameFold tmp mapId (fsRename fs (tmp a) (interFile mapId a)) pre := rfl
    rw [hcons, ih _ q (fun i hi => h i (List.mem_cons_of_mem a hi))]
    exact fsRename_other _ _ _ _ (h a (List.mem_cons_self a pre)).1
      (h a (List.mem_cons_self a pre)).2

theorem renameFold_temp_none (tmp : Nat → String) (mapId : Nat) :
    ∀ (pre : List Nat) (fs : FS) (i : Nat), i ∈ pre →
      pre.Nodup →
      (∀ a ∈ pre, ∀ b ∈ pre, tmp a = tmp b → a = b) →
      (∀ a ∈ pre, ∀ b ∈ pre, tmp a ≠ interFile mapId b) →
      renameFold tmp mapId fs pre (tmp i) = none := by
  intro pre
  induction pre with
  | nil => intro fs i hi; cases hi
  | cons a pre ih =>
    intro fs i hi hnd hinj hdisj
    have hcons : renameFold tmp mapId fs (a :: pre) =
        renameFold tmp mapId (fsRename fs (tmp a) (interFile mapId a)) pre := rfl
    rw [hcons]
    rcases List.mem_cons.mp hi with rfl | hi'
    · rw [renameFold_untouched tmp mapId pre _ (tmp i) ?_]
      · exact fsRename_src _ _ _
          (hdisj i (List.mem_cons_self i pre) i (List.mem_cons_self i pre))
      · intro j hj
        constructor
        · intro he
          have hij := hinj i (List.mem_cons_self i pre) j (List.mem_cons_of_mem i hj) he
          rw [hij] at hnd
          exact (List.nodup_cons.mp hnd).1 hj
        · exact hdisj i (List.mem_cons_self i pre) j (List.mem_cons_of_mem i hj)
    · exact ih _ i hi' (List.nodup_cons.mp hnd).2
        (fun x hx y hy => hinj x (List.mem_cons_of_mem a hx) y (List.mem_cons_of_mem a hy))
        (fun x hx y hy => hdisj x (List.mem_cons_of_mem a hx) y (List.mem_cons_of_mem a hy))

theorem renameTemps_cons_fail (tmp : Nat → String) (mapId : Nat) (fail : Nat → Bool)
    (r : Nat) (post : List Nat) (fs : FS) (renamed : List Nat) (hf : fail r = true) :
    renameTemps tmp mapId fail (r :: post) fs renamed =
      (removeAll (removeAll fs ((r :: post).map tmp))
        (renamed.map (fun i => interFile mapId i)), false) := by
  rw [renameTemps, if_pos hf]

theorem renameTemps_append_no_fail (tmp : Nat → String) (mapId : Nat) (fail : Nat → Bool) :
    ∀ (pre : List Nat), (∀ i ∈ pre, fail i = false) →
      ∀ (rest2 : List Nat) (fs : FS) (renamed : List Nat),
        renameTemps tmp mapId fail (pre ++ rest2) fs renamed =
          renameTemps tmp mapId fail rest2 (renameFold tmp mapId fs pre) (renamed ++ pre) := by
  intro pre
  induction pre with
  | nil => intro _ rest2 fs renamed; simp [renameFold]
  | cons a pre ih =>
    intro hpre rest2 fs renamed
    rw [List.cons_append, renameTemps, if_neg (by simp [hpre a (List.mem_cons_self a pre)])]
    rw [ih (fun i hi => hpre i (List.mem_cons_of_mem a hi)) rest2 _ _]
    rw [List.append_assoc]
    rfl

theorem renameTemps_success_of_no_fail (tmp : Nat → String) (mapId : Nat)
    (fail : Nat → Bool) :
    ∀ (idxs : List Nat) (fs : FS) (renamed : List Nat),
      (∀ i ∈ idxs, fail i = false) →
      (renameTemps tmp mapId fail idxs fs renamed).2 = true := by
  intro idxs
  induction idxs with
  | nil => intro fs renamed _; rfl
  | cons a rest ih =>
    intro fs renamed h
    rw [renameTemps, if_neg (by simp [h a (List.mem_cons_self a rest)])]
    exact ih _ _ (fun i hi => h i (List.mem_cons_of_mem a hi))

theorem renameTemps_split_of_fail (tmp : Nat → String) (mapId : Nat) (fail : Nat → Bool) :
    ∀ (idxs : List Nat) (fs : FS) (renamed : List Nat),
      (renameTemps tmp mapId fail idxs fs renamed).2 = false →
      ∃ pre r post, idxs = pre ++ r :: post ∧ (∀ i ∈ pre, fail i = false) ∧ fail r = true := by
  intro idxs
  induction idxs with
  | nil => intro fs renamed h; cases h
  | cons a rest ih =>
    intro fs renamed h
    by_cases hf : fail a = true
    · exact ⟨[], a, rest, rfl, by simp, hf⟩
    · rw [renameTemps, if_neg hf] at h
      obtain ⟨pre, r, post, heq, hpre, hr⟩ := ih _ _ h
      refine ⟨a :: pre, r, post, by rw [List.cons_append, heq], ?_, hr⟩
      intro i hi
      rcases List.mem_cons.mp hi with rfl | hi'
      · simpa using hf
      · exact hpre i hi'

/-- C2 as stated is false on the code: with `R = 2`, a pre-existing final
file `mr-0-0` holding `"old"`, no create or encode failure, and a rename
failure at bucket 1, the attempt fails after renaming bucket 0 over
`mr-0-0`; its cleanup then removes `mr-0-0`, so the final path that existed
before the attempt is first overwritten and then deleted rather than left
with its prior contents. -/
theorem map_rename_failure_removes_existing_final :
    (performMapWrite 0 2 (fun r => "tmp-" ++ toString r) (fun _ => "new")
      ⟨fun _ => false, fun _ => false, fun r => r == 1⟩
      (fsSet fsEmpty (interFile 0 0) "old")).2 = false ∧
    (fsSet fsEmpty (interFile 0 0) "old") (interFile 0 0) = some "old" ∧
    (performMapWrite 0 2 (fun r => "tmp-" ++ toString r) (fun _ => "new")
      ⟨fun _ => false, fun _ => false, fun r => r == 1⟩
      (fsSet fsEmpty (interFile 0 0) "old")).1 (interFile 0 0) = none := by
  refine ⟨by decide, by decide, by decide⟩

/-- C2 amended: on any failure both protocols delete their temporary files
and report failure.  The reduce protocol leaves the final path `mr-out-<r>`
with its prior contents.  The map protocol leaves every final path
`mr-<m>-<j>` untouched when the failure happens before the rename loop, but
when rename fails at bucket `r` it deletes the final paths of the buckets
already renamed in this attempt (`j < r`, even paths that existed before)
while the final paths of the buckets at or after `r` keep their prior
contents.  Temporary-file names are assumed pairwise distinct, disjoint from
the final names, and initially absent (as `ioutil.TempFile` guarantees). -/
theorem atomic_write_failure_behavior (mapId R : Nat) (tmp content : Nat → String)
    (o : MapFailures) (fs : FS)
    (htinj : ∀ i, i < R → ∀ j, j < R → tmp i = tmp j → i = j)
    (hfinj : ∀ i, i < R → ∀ j, j < R → interFile mapId i = interFile mapId j → i = j)
    (hdisj : ∀ i, i < R → ∀ j, j < R → tmp i ≠ interFile mapId j)
    (hinit : ∀ i, i < R → fs (tmp i) = none) :
    ((performMapWrite mapId R tmp content o fs).2 = false →
      ∀ i, i < R → (performMapWrite mapId R tmp content o fs).1 (tmp i) = none) ∧
    ((∀ r, r < R → o.renameFail r = false) →
      (performMapWrite mapId R tmp content o fs).2 = false →
      ∀ j, j < R → (performMapWrite mapId R tmp content o fs).1 (interFile mapId j) =
        fs (interFile mapId j)) ∧
    (∀ r, r < R → o.renameFail r = true → (∀ r', r' < r → o.renameFail r' = false) →
      (∀ i, i < R → o.createFail i = false) → (∀ i, i < R → o.encodeFail i = false) →
      (performMapWrite mapId R tmp content o fs).2 = false ∧
      (∀ j, j < r → (performMapWrite mapId R tmp content o fs).1 (interFile mapId j) =
        none) ∧
      (∀ j, r ≤ j → j < R →
        (performMapWrite mapId R tmp content o fs).1 (interFile mapId j) =
          fs (interFile mapId j))) ∧
    (∀ (files : List OpenResult) (reducef : String → List String → String) (r2 : Nat)
        (tmpName : String) (cf rf : Bool) (fs2 : FS),
      tmpName ≠ outFile r2 →
      (performReduceTask files reducef r2 tmpName cf rf fs2).2 = false →
      (performReduceTask files reducef r2 tmpName cf rf fs2).1 (outFile r2) =
        fs2 (outFile r2) ∧
      (fs2 tmpName = none →
        (performReduceTask files reducef r2 tmpName cf rf fs2).1 tmpName = none)) := by
  have hdef : performMapWrite mapId R tmp content o fs =
      (if (createTemps tmp o.createFail (List.range R) fs []).2 = true then
        (if (writeTemps tmp content o.encodeFail ((List.range R).map tmp) (List.range R)
              (createTemps tmp o.createFail (List.range R) fs []).1).2 = true then
          renameTemps tmp mapId o.renameFail (List.range R)
            (writeTemps tmp content o.encodeFail ((List.range R).map tmp) (List.range R)
              (createTemps tmp o.createFail (List.range R) fs []).1).1 []
        else
          ((writeTemps tmp content o.encodeFail ((List.range R).map tmp) (List.range R)
              (createTemps tmp o.createFail (List.range R) fs []).1).1, false))
      else ((createTemps tmp o.createFail (List.range R) fs []).1, false)) := rfl
  have hbound : ∀ x, x ∈ List.range R → x < R := fun x hx => List.mem_range.mp hx
  refine ⟨?_, ?_, ?_, ?_⟩
  · -- (A) every failure deletes every temporary file
    intro hfail i hiR
    rw [hdef] at hfail ⊢
    by_cases h1 : (createTemps tmp o.createFail (List.range R) fs []).2 = true
    · rw [if_pos h1] at hfail ⊢
      by_cases h2 : (writeTemps tmp content o.encodeFail ((List.range R).map tmp)
          (List.range R) (createTemps tmp o.createFail (List.range R) fs []).1).2 = true
      · rw [if_pos h2] at hfail ⊢
        obtain ⟨pre, r, post, heq, hpre, hr⟩ :=
          renameTemps_split_of_fail tmp mapId o.renameFail _ _ _ hfail
        have hpresub : ∀ x ∈ pre, x < R := by
          intro x hx
          exact hbound x (heq ▸ List.mem_append_left _ hx)
        have hpostsub : ∀ x ∈ r :: post, x < R := by
          intro x hx
          exact hbound x (heq ▸ List.mem_append_right _ hx)
        have hprend : pre.Nodup := List.Nodup.of_append_left (heq ▸ List.nodup_range R)
        rw [heq, renameTemps_append_no_fail tmp mapId o.renameFail pre hpre,
          renameTemps_cons_fail tmp mapId o.renameFail r post _ _ hr]
        simp only [List.nil_append, removeAll_apply]
        by_cases hq1 : tmp i ∈ pre.map (fun j => interFile mapId j)
        · rw [if_pos hq1]
        · rw [if_neg hq1]
          by_cases hq2 : tmp i ∈ (r :: post).map tmp
          · rw [if_pos hq2]
          · rw [if_neg hq2]
            have hipre : i ∈ pre := by
              have : i ∈ List.range R := List.mem_range.mpr hiR
              rw [heq] at this
              rcases List.mem_append.mp this with h | h
              · exact h
              · exact absurd (List.mem_map_of_mem tmp h) hq2
            exact renameFold_temp_none tmp mapId pre _ i hipre hprend
              (fun a ha b hb => htinj a (hpresub a ha) b (hpresub b hb))
              (fun a ha b hb => hdisj a (hpresub a ha) b (hpresub b hb))
      · rw [if_neg h2] at hfail ⊢
        simp only []
        rw [writeTemps_fail_apply tmp content o.encodeFail _ _ _
          (fun j hj => List.mem_map_of_mem tmp hj)
          (by simpa using h2) (tmp i)]
        rw [if_pos (List.mem_map_of_mem tmp (List.mem_range.mpr hiR))]
    · rw [if_neg h1] at hfail ⊢
      simp only []
      exact createTemps_fail_temp_none tmp o.createFail _ _ _ i
        (Or.inl (hinit i hiR)) (by simpa using h1)
  · -- (B) failures before the rename loop leave every final path untouched
    intro hnorename hfail j hjR
    have hqtmp : ∀ i ∈ List.range R, interFile mapId j ≠ tmp i := by
      intro i hi he
      exact hdisj i (hbound i hi) j hjR he.symm
    rw [hdef] at hfail ⊢
    by_cases h1 : (createTemps tmp o.createFail (List.range R) fs []).2 = true
    · rw [if_pos h1] at hfail ⊢
      by_cases h2 : (writeTemps tmp content o.encodeFail ((List.range R).map tmp)
          (List.range R) (createTemps tmp o.createFail (List.range R) fs []).1).2 = true
      · rw [if_pos h2] at hfail
        have hsucc := renameTemps_success_of_no_fail tmp mapId o.renameFail (List.range R)
          (writeTemps tmp content o.encodeFail ((List.range R).map tmp) (List.range R)
            (createTemps tmp o.createFail (List.range R) fs []).1).1 []
          (fun i hi => hnorename i (hbound i hi))
        rw [hsucc] at hfail
        cases hfail
      · rw [if_neg h2] at hfail ⊢
        simp only []
        rw [writeTemps_fail_apply tmp content o.encodeFail _ _ _
          (fun i hi => List.mem_map_of_mem tmp hi) (by simpa using h2) _]
        rw [if_neg (by
          intro hmem
          obtain ⟨i, hi, hti⟩ := List.mem_map.mp hmem
          exact hqtmp i hi hti.symm)]
        exact createTemps_untouched tmp o.createFail _ fs [] _ (by simp) hqtmp
    · rw [if_neg h1] at hfail ⊢
      simp only []
      exact createTemps_untouched tmp o.createFail _ fs [] _ (by simp) hqtmp
  · -- (C) a rename failure at bucket r: report failure, remove the finals of
    -- the buckets already renamed, keep the others untouched
    intro r hrR hr hprefix hcf hef
    have h1 : (createTemps tmp o.createFail (List.range R) fs []).2 = true :=
      createTemps_success_of_no_fail tmp o.createFail _ fs []
        (fun i hi => hcf i (hbound i hi))
    have h2 : (writeTemps tmp content o.encodeFail ((List.range R).map tmp) (List.range R)
        (createTemps tmp o.createFail (List.range R) fs []).1).2 = true :=
      writeTemps_success_of_no_fail tmp content o.encodeFail _ _ _
        (fun i hi => hef i (hbound i hi))
    have hres : performMapWrite mapId R tmp content o fs =
        renameTemps tmp mapId o.renameFail (List.range R)
          (writeTemps tmp content o.encodeFail ((List.range R).map tmp) (List.range R)
            (createTemps tmp o.createFail (List.range R) fs []).1).1 [] := by
      rw [hdef, if_pos h1, if_pos h2]
    have hsplit : List.range R = List.range r ++ r ::
        (List.range (R - (r + 1))).map (fun x => (r + 1) + x) := by
      have ha : List.range R =
          List.range (r + 1) ++ (List.range (R - (r + 1))).map (fun x => (r + 1) + x) := by
        rw [← List.range_add]
        congr 1
        omega
      rw [ha, List.range_succ, List.append_assoc]
      rfl
    have hpostsub : ∀ x ∈ r :: (List.range (R - (r + 1))).map (fun x => (r + 1) + x),
        x < R := by
      intro x hx
      refine List.mem_range.mp ?_
      rw [hsplit]
      exact List.mem_append_right _ hx
    have hRT : performMapWrite mapId R tmp content o fs =
        (removeAll
          (removeAll
            (renameFold tmp mapId
              (writeTemps tmp content o.encodeFail ((List.range R).map tmp) (List.range R)
                (createTemps tmp o.createFail (List.range R) fs []).1).1
              (List.range r))
            ((r :: (List.range (R - (r + 1))).map (fun x => (r + 1) + x)).map tmp))
          (([] ++ List.range r).map (fun i => interFile mapId i)), false) := by
      rw [hres, hsplit,
        renameTemps_append_no_fail tmp mapId o.renameFail (List.range r)
          (fun i hi => hprefix i (List.mem_range.mp hi)),
        renameTemps_cons_fail tmp mapId o.renameFail r _ _ _ hr]
    refine ⟨by rw [hRT], ?_, ?_⟩
    · intro j hjr
      rw [hRT]
      simp only [List.nil_append, removeAll_apply]
      rw [if_pos (List.mem_map_of_mem _ (List.mem_range.mpr hjr))]
    · intro j hrj hjR
      have hjnotpre : interFile mapId j ∉ (List.range r).map (fun i => interFile mapId i) := by
        intro hmem
        obtain ⟨j', hj', he⟩ := List.mem_map.mp hmem
        have hj'r := List.mem_range.mp hj'
        have := hfinj j' (lt_of_lt_of_le hj'r (le_of_lt hrR)) j hjR he
        omega
      have hjnottmp : interFile mapId j ∉
          ((r :: (List.range (R - (r + 1))).map (fun x => (r + 1) + x)).map tmp) := by
        intro hmem
        obtain ⟨i, hi, he⟩ := List.mem_map.mp hmem
        exact hdisj i (hpostsub i hi) j hjR he
      rw [hRT]
      simp only [List.nil_append, removeAll_apply]
      rw [if_neg hjnotpre, if_neg hjnottmp]
      rw [renameFold_untouched tmp mapId (List.range r) _ _ ?_]
      · rw [writeTemps_untouched tmp content o.encodeFail _ _ _ _ ?_ ?_]
        · exact createTemps_untouched tmp o.createFail _ fs [] _ (by simp)
            (fun i hi he => hdisj i (hbound i hi) j hjR he.symm)
        · intro hmem
          obtain ⟨i, hi, he⟩ := List.mem_map.mp hmem
          exact hdisj i (hbound i hi) j hjR he
        · intro i hi he
          exact hdisj i (hbound i hi) j hjR he.symm
      · intro i hi
        have hir := List.mem_range.mp hi
        constructor
        · intro he
          exact hdisj i (lt_trans hir hrR) j hjR he.symm
        · intro he
          have := hfinj i (lt_trans hir hrR) j hjR he.symm
          omega
  · -- (D) the reduce protocol: failure leaves the final path untouched and
    -- the temporary file absent
    intro files reducef r2 tmpName cf rf fs2 hne hfail
    cases cf with
    | true =>
      constructor
      · rfl
      · intro h
        exact h
    | false =>
      cases rf with
      | true =>
        constructor
        · show fsRemove (fsSet (fsSet fs2 tmpName "") tmpName _) tmpName (outFile r2) =
            fs2 (outFile r2)
          rw [fsRemove_other _ _ _ (Ne.symm hne), fsSet_other _ _ _ _ (Ne.symm hne),
            fsSet_other _ _ _ _ (Ne.symm hne)]
        · intro _
          exact fsRemove_same _ _
      | false => cases hfail

/-- Concrete instance of `atomic_write_failure_behavior`: the scenario of the
counterexample, seen through the amended statement — bucket 0's final file is
removed, bucket 1's is untouched, and the attempt reports failure. -/
theorem atomic_write_failure_behavior_witness :
    (performMapWrite 0 2 (fun r => "tmp-" ++ toString r) (fun _ => "new")
      ⟨fun _ => false, fun _ => false, fun r => r == 1⟩
      (fsSet fsEmpty (interFile 0 0) "old")).2 = false ∧
    (performMapWrite 0 2 (fun r => "tmp-" ++ toString r) (fun _ => "new")
      ⟨fun _ => false, fun _ => false, fun r => r == 1⟩
      (fsSet fsEmpty (interFile 0 0) "old")).1 (interFile 0 0) = none ∧
    (performMapWrite 0 2 (fun r => "tmp-" ++ toString r) (fun _ => "new")
      ⟨fun _ => false, fun _ => false, fun r => r == 1⟩
      (fsSet fsEmpty (interFile 0 0) "old")).1 (interFile 0 1) =
      (fsSet fsEmpty (interFile 0 0) "old") (interFile 0 1) := by
  have h := (atomic_write_failure_behavior 0 2 (fun r => "tmp-" ++ toString r)
    (fun _ => "new") ⟨fun _ => false, fun _ => false, fun r => r == 1⟩
    (fsSet fsEmpty (interFile 0 0) "old")
    (by decide) (by decide) (by decide) (by decide)).2.2.1 1
    (by decide) (by decide) (by decide) (by decide) (by decide)
  exact ⟨h.1, h.2.1 0 (by decide), h.2.2 1 (by decide) (by decide)⟩

end MR
